import Mathlib

/-
Verification of the rallyup wake-on-LAN orchestrator.

Shallow embedding of the three source files:
  src/servers.rs : dependency resolver (depth-first topological sort),
                   health-check validation, health-check evaluation;
  src/wol.rs     : byte-exact Wake-on-LAN frame builder;
  src/main.rs    : orchestration loop (sequential wake, concurrent checks).

Conventions of the embedding:
  - Rust HashSet/HashMap are modelled by lists with membership semantics;
    HashMap built by collect (later inserts overwrite earlier ones) is
    modelled by find? over the reversed insertion list.
  - Machine integers are Nat (u16 masks written explicitly where the code
    masks), durations are Nat ticks.
  - Fallible code returns Except/Option.  Recursion through the dependency
    graph is expressed with explicit fuel; fuel exhaustion returns an error,
    so every success of the model corresponds to a genuine success path of
    the code.
  - Network, subprocess and clock effects are oracled: evaluation results
    and durations of the health-check attempts are parameters.
-/

set_option maxRecDepth 20000

namespace Rallyup

/-- Error enum from src/servers.rs (ServerConfigError). -/
inductive ServerConfigError where
  | ParseError (msg : String)
  | UndefinedDependency (name : String)
  | CircularDependency (name : String)
  | BadHealthCheckDefinition (msg : String)
deriving DecidableEq, Repr

/-- HealthCheck enum from src/servers.rs: tagged union with variants
Http, Port, Shell.  `retry` is a duration in ticks; compiled regexes are
modelled by their pattern string (validation only tests presence). -/
inductive HealthCheck where
  | Http (url : String) (status : Option Nat) (retry : Nat) (regex : Option String)
  | Port (ip : String) (port : Nat) (retry : Nat)
  | Shell (command : String) (retry : Nat) (status : Option Int) (regex : Option String)
deriving DecidableEq, Repr

/-- Server struct from src/servers.rs. -/
structure Server where
  name : String
  mac : String
  interface : String
  vlan : Option Nat
  depends : List String
  check : List HealthCheck
deriving DecidableEq, Repr

/-- map_server_names from src/servers.rs: HashMap from name to server built
by collect; a later server with the same name overwrites an earlier one,
hence find? over the reversed list. -/
def map_server_names (servers : List Server) : String → Option Server :=
  fun n => servers.reverse.find? (fun s => s.name == n)

/-- The three mutable accumulators of determine_wakeup_order:
visited set, visiting (in-progress) set, and the postorder output list. -/
structure DfsState where
  visited : List String
  visiting : List String
  sorted : List String
deriving DecidableEq, Repr

/-- The dependency loop inside depth_first_search (src/servers.rs lines
121-126): look each name up in the map, failing with UndefinedDependency
for a name that is absent, and recurse (the recursive call is the `step`
parameter) through every dependency in order, propagating errors. -/
def dfsDeps (step : Server → DfsState → Except ServerConfigError DfsState)
    (lookup : String → Option Server) :
    List String → DfsState → Except ServerConfigError DfsState
  | [], st => Except.ok st
  | d :: rest, st =>
    match lookup d with
    | none => Except.error (ServerConfigError.UndefinedDependency d)
    | some depServer =>
      match step depServer st with
      | Except.error e => Except.error e
      | Except.ok st1 => dfsDeps step lookup rest st1

/-- depth_first_search from src/servers.rs (lines 104-134): three-colour
DFS.  A node found in `visiting` closes a cycle and fails with the name of the current
node; a node in `visited` is skipped; otherwise the node is marked
in-progress, its dependencies are traversed, and on completion the node is
moved to `visited` and appended to `sorted`.  The Rust recursion terminates
because `visiting` grows on every nested call; the embedding carries fuel
and reports the cycle error on exhaustion, so model successes coincide
with source successes. -/
def depth_first_search (lookup : String → Option Server) :
    Nat → Server → DfsState → Except ServerConfigError DfsState
  | 0, server, _ => Except.error (ServerConfigError.CircularDependency server.name)
  | fuel + 1, server, st =>
    if server.name ∈ st.visiting then
      Except.error (ServerConfigError.CircularDependency server.name)
    else if server.name ∈ st.visited then
      Except.ok st
    else
      match dfsDeps (fun srv st1 => depth_first_search lookup fuel srv st1) lookup
          server.depends
          { st with visiting := server.name :: st.visiting } with
      | Except.error e => Except.error e
      | Except.ok st2 =>
        Except.ok { visited := server.name :: st2.visited,
                    visiting := st2.visiting.erase server.name,
                    sorted := st2.sorted ++ [server.name] }

/-- The top-level loop of determine_wakeup_order (src/servers.rs lines
84-94): run the DFS from every not-yet-visited server, in input order. -/
def dfsAll (lookup : String → Option Server) (fuel : Nat) :
    List Server → DfsState → Except ServerConfigError DfsState
  | [], st => Except.ok st
  | s :: rest, st =>
    if s.name ∈ st.visited then dfsAll lookup fuel rest st
    else
      match depth_first_search lookup fuel s st with
      | Except.error e => Except.error e
      | Except.ok st1 => dfsAll lookup fuel rest st1

/-- determine_wakeup_order from src/servers.rs (lines 77-102): run the DFS
over all servers and map the sorted names back through the map (the Rust
unwrap never fires because every sorted name is a map key; filterMap is
the total rendering of that lookup). -/
def determine_wakeup_order (servers : List Server) : Except ServerConfigError (List Server) :=
  match dfsAll (map_server_names servers) (servers.length + 1) servers ⟨[], [], []⟩ with
  | Except.error e => Except.error e
  | Except.ok st => Except.ok (st.sorted.filterMap (map_server_names servers))

/-- Helper used only to build concrete inputs in the statements below. -/
def mkServer (name : String) (depends : List String) : Server :=
  { name := name, mac := "00:11:22:33:44:55", interface := "eth0", vlan := none,
    depends := depends, check := [] }

/-- The fan-in example of the spec and of test_determine_wakeup_order:
server_a depends on server_b and server_c, server_b depends on server_c. -/
def faninServers : List Server :=
  [mkServer "server_a" ["server_b", "server_c"],
   mkServer "server_b" ["server_c"],
   mkServer "server_c" []]

/-- The 4-node cycle of the spec and of test_circular_dependencies. -/
def cycleServers : List Server :=
  [mkServer "server1" ["server2"],
   mkServer "server2" ["server3"],
   mkServer "server3" ["server4"],
   mkServer "server4" ["server1"]]

/-- The wake order the fan-in example resolves to. -/
def faninOrder : List Server :=
  [mkServer "server_c" [],
   mkServer "server_b" ["server_c"],
   mkServer "server_a" ["server_b", "server_c"]]

/-- A single server with two undefined dependencies, x first and y second:
the traversal reports x, so no run reports y. -/
def cexServers : List Server := [mkServer "a" ["x", "y"]]

instance {ε α : Type} [DecidableEq ε] [DecidableEq α] : DecidableEq (Except ε α) := fun
  | Except.ok a, Except.ok b =>
    if h : a = b then isTrue (by rw [h]) else isFalse (by intro hc; cases hc; exact h rfl)
  | Except.error e, Except.error f =>
    if h : e = f then isTrue (by rw [h]) else isFalse (by intro hc; cases hc; exact h rfl)
  | Except.ok _, Except.error _ => isFalse (by intro hc; cases hc)
  | Except.error _, Except.ok _ => isFalse (by intro hc; cases hc)

/-- Hex digit test used by the IPv6 group reader. -/
def isHexDigitChar (c : Char) : Bool :=
  c.isDigit || ('a' ≤ c && c ≤ 'f') || ('A' ≤ c && c ≤ 'F')

/-- Numeric value of a decimal digit character. -/
def digitVal (c : Char) : Nat := c.toNat - 48

/-- Numeric value of a hexadecimal digit character. -/
def hexDigitVal (c : Char) : Nat :=
  if c.isDigit then c.toNat - 48
  else if 'a' ≤ c && c ≤ 'f' then c.toNat - 87
  else c.toNat - 55

/-- One dotted-quad group of the Rust std IpAddr parser (read_number with
radix 10, at most 3 digits, no leading zero, value at most 255): the whole
digit run is read, and too many digits, a zero prefix, or overflow fail. -/
def read_ipv4_octet (s : List Char) : Option (Nat × List Char) :=
  let ds := s.takeWhile Char.isDigit
  if ds.length = 0 then none
  else if 3 < ds.length then none
  else if 1 < ds.length && ds.headI = '0' then none
  else
    let v := ds.foldl (fun a c => 10 * a + digitVal c) 0
    if v ≤ 255 then some (v, s.dropWhile Char.isDigit) else none

/-- read_ipv4_addr of the Rust std parser: four octets separated by dots;
returns the remaining input (the caller decides whether it must be empty). -/
def read_ipv4_addr (s : List Char) : Option (List Nat × List Char) :=
  match read_ipv4_octet s with
  | none => none
  | some (a, r1) =>
    match r1 with
    | '.' :: r2 =>
      match read_ipv4_octet r2 with
      | none => none
      | some (b, r3) =>
        match r3 with
        | '.' :: r4 =>
          match read_ipv4_octet r4 with
          | none => none
          | some (c, r5) =>
            match r5 with
            | '.' :: r6 =>
              match read_ipv4_octet r6 with
              | none => none
              | some (d, r7) => some ([a, b, c, d], r7)
            | _ => none
        | _ => none
    | _ => none

/-- One 16-bit IPv6 group (read_number with radix 16, at most 4 digits,
zero prefix allowed). -/
def read_h16 (s : List Char) : Option (List Char) :=
  let ds := s.takeWhile isHexDigitChar
  if ds.length = 0 then none
  else if 4 < ds.length then none
  else some (s.dropWhile isHexDigitChar)

/-- read_separator of the Rust std parser: every group but the first is
preceded by a colon. -/
def read_sep_h16 (needSep : Bool) (s : List Char) : Option (List Char) :=
  if needSep then
    match s with
    | ':' :: rest => read_h16 rest
    | _ => none
  else read_h16 s

/-- An embedded dotted-quad inside an IPv6 address, with its separator. -/
def read_sep_ipv4 (needSep : Bool) (s : List Char) : Option (List Char) :=
  if needSep then
    match s with
    | ':' :: rest => (read_ipv4_addr rest).map (fun p => p.2)
    | _ => none
  else (read_ipv4_addr s).map (fun p => p.2)

/-- read_groups of the Rust std IPv6 parser: fill up to `remaining` slots;
when at least two slots remain an embedded IPv4 address (counting as two
groups) may terminate the run.  Returns the number of groups read, whether
an embedded IPv4 was read, and the remaining input. -/
def read_groups : Nat → Nat → List Char → Nat × Bool × List Char
  | 0, _, s => (0, false, s)
  | remaining + 1, i, s =>
    match (if 1 ≤ remaining then read_sep_ipv4 (i ≠ 0) s else none) with
    | some rest => (2, true, rest)
    | none =>
      match read_sep_h16 (i ≠ 0) s with
      | none => (0, false, s)
      | some rest =>
        let t := read_groups remaining (i + 1) rest
        (t.1 + 1, t.2.1, t.2.2)

/-- read_ipv6_addr of the Rust std parser: a head of up to 8 groups; 8
groups form a complete address, an embedded IPv4 anywhere short of 8 is
rejected, and otherwise a double colon (standing for one or more zero
groups) is followed by a tail of at most 8 - head - 1 groups. -/
def read_ipv6_addr (s : List Char) : Option (List Char) :=
  let h := read_groups 8 0 s
  if h.1 = 8 then some h.2.2
  else if h.2.1 then none
  else
    match h.2.2 with
    | ':' :: ':' :: rest2 =>
      let t := read_groups (8 - (h.1 + 1)) 0 rest2
      some t.2.2
    | _ => none

/-- IpAddr::from_str: try the IPv4 form, then the IPv6 form, and require
all input consumed.  Only acceptance matters to validate_health_check. -/
def parse_ip_addr (ip : String) : Bool :=
  (match read_ipv4_addr ip.data with
   | some (_, []) => true
   | _ => false)
  ||
  (match read_ipv6_addr ip.data with
   | some [] => true
   | _ => false)

/-- validate_health_check from src/servers.rs (lines 136-172): an Http
check needs a status or a regex, a Port check needs an ip that parses as
an IP address, a Shell check needs a status or a regex. -/
def validate_health_check (healthcheck : HealthCheck) : Except ServerConfigError Unit :=
  match healthcheck with
  | HealthCheck.Http _ status _ regex =>
    if status.isNone && regex.isNone then
      Except.error (ServerConfigError.BadHealthCheckDefinition
        "HTTP health check requires an HTTP status code to match and/or a Regex to match in the response")
    else Except.ok ()
  | HealthCheck.Port ip _ _ =>
    if parse_ip_addr ip = false then
      Except.error (ServerConfigError.BadHealthCheckDefinition
        "Port check requires a valid IP address")
    else Except.ok ()
  | HealthCheck.Shell _ _ status regex =>
    if status.isNone && regex.isNone then
      Except.error (ServerConfigError.BadHealthCheckDefinition
        "Health check via shell command requires an return code to match and/or a Regex to match in the standard output")
    else Except.ok ()

/-- The inner validation loop of parse_server_dependencies: validate every
check of one server, propagating the first error. -/
def validate_checks : List HealthCheck → Except ServerConfigError Unit
  | [] => Except.ok ()
  | hc :: rest =>
    match validate_health_check hc with
    | Except.error e => Except.error e
    | Except.ok _ => validate_checks rest

/-- The outer validation loop of parse_server_dependencies (src/servers.rs
lines 181-185). -/
def validate_servers : List Server → Except ServerConfigError Unit
  | [] => Except.ok ()
  | s :: rest =>
    match validate_checks s.check with
    | Except.error e => Except.error e
    | Except.ok _ => validate_servers rest

/-- parse_server_dependencies from src/servers.rs (lines 174-192), taken
after the external YAML deserialization step (file IO and serde are
collaborators outside the core): validate every health check, then
topologically sort. -/
def parse_server_dependencies (servers : List Server) : Except ServerConfigError (List Server) :=
  match validate_servers servers with
  | Except.error e => Except.error e
  | Except.ok _ => determine_wakeup_order servers

/-! Frame builder, from src/wol.rs. -/

def SIZE_DST_MAC : Nat := 6
def SIZE_SRC_MAC : Nat := 6
def SIZE_ETHERTYPE : Nat := 2
def SIZE_VLAN_ETHERTYPE : Nat := 2
def SIZE_VLAN_TAG : Nat := 2
def SIZE_WOL_PAYLOAD : Nat := 102

def WOL_ETHERTYPE : List Nat := [0x08, 0x42]

/-- create_wol_payload from src/wol.rs (lines 50-57): six 0xFF bytes then
the 6 target MAC octets sixteen times. -/
def create_wol_payload (mac : List Nat) : List Nat :=
  List.replicate 6 0xFF ++ (List.replicate 16 mac).flatten

/-- vlan_to_bytes from src/wol.rs (lines 59-63): mask to the low 12 bits
and serialize big-endian into two bytes. -/
def vlan_to_bytes (vlan : Nat) : List Nat :=
  [(vlan &&& 0x0FFF) / 256, (vlan &&& 0x0FFF) % 256]

/-- A copy_from_slice into a buffer slice: the bytes replace the window of
the buffer starting at `off`. -/
def write_bytes (buffer : List Nat) (off : Nat) (bytes : List Nat) : List Nat :=
  buffer.take off ++ bytes ++ buffer.drop (off + bytes.length)

/-- set_ethertype of MutableEthernetPacket: the two big-endian bytes of a
16-bit EtherType value. -/
def ethertype_bytes (v : Nat) : List Nat := [v / 256 % 256, v % 256]

/-- build_wol_packet from src/wol.rs (lines 65-123), at the point where the
target MAC has parsed and the interface was found and has a hardware
address (the three failure cases return errors before any byte is built).
The zeroed buffer is sized, then destination, source, EtherType chain and
payload are written at the same offsets the Rust code uses. -/
def build_wol_packet (target_mac iface_mac : List Nat) (vlan_id : Option Nat) : List Nat :=
  let wol_packet := create_wol_payload target_mac
  let payload_size :=
    (if vlan_id.isSome then SIZE_VLAN_TAG + SIZE_VLAN_ETHERTYPE else 0) + SIZE_WOL_PAYLOAD
  let packet_size := SIZE_DST_MAC + SIZE_SRC_MAC + SIZE_ETHERTYPE + payload_size
  let buffer0 := List.replicate packet_size 0
  let buffer1 := write_bytes buffer0 0 (List.replicate 6 0xFF)
  let buffer2 := write_bytes buffer1 6 iface_mac
  match vlan_id with
  | some vlan =>
    let buffer3 := write_bytes buffer2 12 (ethertype_bytes 0x8100)
    let buffer4 := write_bytes buffer3 14 (vlan_to_bytes vlan)
    let buffer5 := write_bytes buffer4 16 WOL_ETHERTYPE
    write_bytes buffer5 18 wol_packet
  | none =>
    let buffer3 := write_bytes buffer2 12 (ethertype_bytes 0x0842)
    write_bytes buffer3 14 wol_packet

/-! Orchestration, from src/main.rs. -/

/-- ServerStatus enum from src/main.rs. -/
inductive ServerStatus where
  | Waiting
  | WOLSent
  | Ok
  | TimedOut
deriving DecidableEq, Repr

/-- CheckStatus enum from src/main.rs; the display-string payloads carried
by the Rust constructors feed only the terminal renderer and are omitted. -/
inductive CheckStatus where
  | Waiting
  | Running
  | TimedOut
  | Ok
deriving DecidableEq, Repr

/-- Modelled from the spec: the per-check record used by main.rs
(`check.timeout`, `check.retry`, `check.method`).  Its Rust definition is
not among the files under src/ (the servers.rs in src/ carries `retry`
inside each HealthCheck variant and has no timeout field, while main.rs
reads `timeout`, `retry` and `method` as fields); the spec states that
every HealthCheckSpec variant carries a retryInterval and a timeout
governing how long the engine may keep polling. -/
structure Check where
  method : HealthCheck
  retry : Nat
  timeout : Nat
deriving DecidableEq, Repr

/-- Modelled from the spec: the server record consumed by the main.rs
orchestration loop, identical to Server except that each check carries its
timeout and retry interval (see Check). -/
structure OServer where
  name : String
  mac : String
  interface : String
  vlan : Option Nat
  depends : List String
  check : List Check
deriving DecidableEq, Repr

/-- The polling loop spawned per check by perform_health_checks
(src/main.rs lines 179-202).  Time is explicit: `elapsed` is the value of
start_time.elapsed() at the top of the iteration, `evalR n` is the result
of the n-th check_health call and `evalD n` the time that call takes, and
the sleep adds the retry interval.  Fuel bounds the number of iterations
modelled; none means the loop has not settled within the fuel. -/
def health_check_loop (timeout retry : Nat) (evalR : Nat → Bool) (evalD : Nat → Nat) :
    Nat → Nat → Nat → Option CheckStatus
  | 0, _, _ => none
  | fuel + 1, attempt, elapsed =>
    if timeout ≤ elapsed then some CheckStatus.TimedOut
    else if evalR attempt then some CheckStatus.Ok
    else health_check_loop timeout retry evalR evalD fuel (attempt + 1)
           (elapsed + evalD attempt + retry)

/-- Elapsed time at the top of the n-th loop iteration: every earlier
iteration ran one evaluate call and slept for the retry interval. -/
def elapsed_at (retry : Nat) (evalD : Nat → Nat) : Nat → Nat
  | 0 => 0
  | n + 1 => elapsed_at retry evalD n + evalD n + retry

/-- The fan-out of perform_health_checks (the for loop over
checks.into_iter().enumerate() spawning one polling task per check): each
check at position j runs its own polling loop against its own oracle slot
evalR j / evalD j, independent of its siblings. -/
def run_checks (evalR : Nat → Nat → Bool) (evalD : Nat → Nat → Nat) (fuel : Nat) :
    List Check → Nat → List (Option CheckStatus)
  | [], _ => []
  | c :: rest, j =>
    health_check_loop c.timeout c.retry (evalR j) (evalD j) fuel 0 0
      :: run_checks evalR evalD fuel rest (j + 1)

/-- The fan-in of perform_health_checks: the for loop awaits every task;
if any task has not settled the loop never finishes, which the model
renders as none. -/
def sequence_settled : List (Option CheckStatus) → Option (List CheckStatus)
  | [] => some []
  | none :: _ => none
  | some r :: rest => (sequence_settled rest).map (fun l => r :: l)

/-- perform_health_checks from src/main.rs (lines 161-224): run every
check of the server, await all of them, and return TimedOut when at least
one task returned TimedOut, Ok otherwise (the foldl mirrors the mutable
`timeout` flag of the Rust loop). -/
def perform_health_checks (checks : List Check) (evalR : Nat → Nat → Bool)
    (evalD : Nat → Nat → Nat) (fuel : Nat) : Option ServerStatus :=
  match sequence_settled (run_checks evalR evalD fuel checks 0) with
  | none => none
  | some results =>
    let timedOut := results.foldl (fun b r => b || (r == CheckStatus.TimedOut)) false
    some (if timedOut then ServerStatus.TimedOut else ServerStatus.Ok)

/-- Externally visible actions of the orchestration loop. -/
inductive Event where
  | WolSent (name : String)
  | ServerSettled (name : String) (status : ServerStatus)
deriving DecidableEq, Repr

/-- Terminal outcome of the orchestration loop of main (src/main.rs lines
272-291). -/
inductive RunOutcome where
  | completed
  | wolFailed (name : String)
  | hung (name : String)
  | healthCheckTimedOut (name : String)
deriving DecidableEq, Repr

/-- The for loop of main over the wake order (src/main.rs lines 272-288):
send the WOL frame (failure of send_wol_packet aborts via ?), run the
health checks of that server to settlement, abort with an error naming the
server when its aggregate status is TimedOut, and otherwise continue with
the next server.  `wolOk i` tells whether sending frame i succeeds, and
the check oracles are indexed by server position in the wake order. -/
def orchestrate (wolOk : Nat → Bool) (evalR : Nat → Nat → Nat → Bool)
    (evalD : Nat → Nat → Nat → Nat) (fuel : Nat) :
    List OServer → Nat → List Event × RunOutcome
  | [], _ => ([], RunOutcome.completed)
  | s :: rest, idx =>
    if wolOk idx then
      match perform_health_checks s.check (evalR idx) (evalD idx) fuel with
      | none => ([Event.WolSent s.name], RunOutcome.hung s.name)
      | some ServerStatus.TimedOut =>
        ([Event.WolSent s.name, Event.ServerSettled s.name ServerStatus.TimedOut],
         RunOutcome.healthCheckTimedOut s.name)
      | some st =>
        let next := orchestrate wolOk evalR evalD fuel rest (idx + 1)
        (Event.WolSent s.name :: Event.ServerSettled s.name st :: next.1, next.2)
    else ([], RunOutcome.wolFailed s.name)

/-- The event block of an orchestration prefix in which every server was
woken and settled Ok: frame sent, then all checks settled Ok, server by
server. -/
def okBlocks : List OServer → List Event
  | [] => []
  | s :: rest =>
    Event.WolSent s.name :: Event.ServerSettled s.name ServerStatus.Ok :: okBlocks rest

/-- Concrete 3-server wake order used to instantiate the sequencing
statements: a has no checks, b has a single check with timeout 0 (so it
times out immediately), c has no checks. -/
def wServerA : OServer := ⟨"a", "00:11:22:33:44:55", "eth0", none, [], []⟩

def wServerB : OServer :=
  ⟨"b", "00:11:22:33:44:66", "eth0", none, ["a"],
    [⟨HealthCheck.Port "127.0.0.1" 80 1, 1, 0⟩]⟩

def wServerC : OServer := ⟨"c", "00:11:22:33:44:77", "eth0", none, ["b"], []⟩

/-- Overall result of a run of main. -/
inductive MainResult where
  | configError (e : ServerConfigError)
  | runResult (r : RunOutcome)
deriving DecidableEq, Repr

/-- main from src/main.rs after argument handling: parse and sort the
configuration — any configuration error aborts before a single frame is
built or a single check runs — then drive the orchestration loop over the
wake order.  `toO` supplies the per-check timeout data that the parsed
configuration carries in the main.rs commit. -/
def main_model (servers : List Server) (toO : Server → OServer) (wolOk : Nat → Bool)
    (evalR : Nat → Nat → Nat → Bool) (evalD : Nat → Nat → Nat → Nat) (fuel : Nat) :
    List Event × MainResult :=
  match parse_server_dependencies servers with
  | Except.error e => ([], MainResult.configError e)
  | Except.ok order =>
    let r := orchestrate wolOk evalR evalD fuel (order.map toO) 0
    (r.1, MainResult.runResult r.2)

/-- The invariant of the DFS accumulators: visited and sorted hold the
same names, sorted has no duplicates, every sorted name is a key of the
map, and every server already in sorted has all its dependencies strictly
earlier in sorted. -/
structure GoodState (lookup : String → Option Server) (st : DfsState) : Prop where
  mem_iff : ∀ n, n ∈ st.visited ↔ n ∈ st.sorted
  nodup : st.sorted.Nodup
  domain : ∀ n ∈ st.sorted, (lookup n).isSome
  topo : ∀ i (hi : i < st.sorted.length) (s : Server),
    lookup st.sorted[i] = some s →
    ∀ d ∈ s.depends, d ∈ st.sorted.take i

/-! Sanity checks of the std IpAddr parser embedding. -/

example : parse_ip_addr "invalid_ip" = false := by decide
example : parse_ip_addr "192.168.1.1" = true := by decide
example : parse_ip_addr "::1" = true := by decide
example : parse_ip_addr "2001:db8::8a2e:370:7334" = true := by decide
example : parse_ip_addr "256.1.1.1" = false := by decide
example : parse_ip_addr "01.1.1.1" = false := by decide
example : parse_ip_addr "1:2:3:4:5:6:7:8" = true := by decide
example : parse_ip_addr "1:2:3:4:5:6:7:8:9" = false := by decide
example : parse_ip_addr "::ffff:192.168.1.1" = true := by decide
example : parse_ip_addr "1.2.3" = false := by decide

/-! Helper lemmas. -/

lemma list_eq_of_length_six {l : List Nat} (h : l.length = 6) :
    ∃ a b c d e f, l = [a, b, c, d, e, f] := by
  obtain ⟨a, t1, rfl⟩ := List.exists_of_length_succ l h
  simp only [List.length_cons] at h
  obtain ⟨b, t2, rfl⟩ := List.exists_of_length_succ t1 (show t1.length = 4 + 1 by omega)
  simp only [List.length_cons] at h
  obtain ⟨c, t3, rfl⟩ := List.exists_of_length_succ t2 (show t2.length = 3 + 1 by omega)
  simp only [List.length_cons] at h
  obtain ⟨d, t4, rfl⟩ := List.exists_of_length_succ t3 (show t3.length = 2 + 1 by omega)
  simp only [List.length_cons] at h
  obtain ⟨e, t5, rfl⟩ := List.exists_of_length_succ t4 (show t4.length = 1 + 1 by omega)
  simp only [List.length_cons] at h
  obtain ⟨f, t6, rfl⟩ := List.exists_of_length_succ t5 (show t5.length = 0 + 1 by omega)
  simp only [List.length_cons] at h
  have h6 : t6.length = 0 := by omega
  rw [List.length_eq_zero] at h6
  subst h6
  exact ⟨a, b, c, d, e, f, rfl⟩

lemma and_fff_eq_mod (x : Nat) : x &&& 0x0FFF = x % 4096 := by
  have h := Nat.and_pow_two_sub_one_eq_mod x 12
  norm_num at h
  exact h

/-- C2 counterexample: the claim asserts a 114-byte buffer without VLAN,
but the code sizes the frame as 6 + 6 + 2 + 102 = 116 bytes (the Rust
test test_ethernet_packet asserts exactly this size).  Built here for the
example MAC of the spec, 01:23:45:67:89:AB. -/
theorem build_wol_packet_not_114_bytes :
    (build_wol_packet [0x01, 0x23, 0x45, 0x67, 0x89, 0xAB]
        [0xDE, 0xAD, 0xBE, 0xEF, 0x00, 0x01] none).length ≠ 114 := by decide

set_option maxHeartbeats 4000000 in
/-- C2 (amended): for 6-byte target and interface MACs the frame layout is
byte-exact as claimed except for the total sizes, which are 116 bytes
without VLAN and 120 with VLAN (Ethernet header 14 or 18 bytes plus the
invariant 102-byte magic payload): without VLAN the frame is broadcast
destination, interface MAC, EtherType 0x0842, six 0xFF bytes, then the
target MAC sixteen times; with VLAN id v the EtherType slot holds 0x8100,
then the big-endian bytes of v AND 0x0FFF (high 4 bits zero, values above
4095 silently truncated, never rejected), then 0x0842 and the same
102-byte payload. -/
theorem build_wol_packet_layout (target iface : List Nat)
    (ht : target.length = 6) (hi : iface.length = 6) :
    ((build_wol_packet target iface none).length = 116
      ∧ (build_wol_packet target iface none).take 6 = List.replicate 6 0xFF
      ∧ ((build_wol_packet target iface none).drop 6).take 6 = iface
      ∧ ((build_wol_packet target iface none).drop 12).take 2 = [0x08, 0x42]
      ∧ ((build_wol_packet target iface none).drop 14).take 6 = List.replicate 6 0xFF
      ∧ (build_wol_packet target iface none).drop 20 = (List.replicate 16 target).flatten)
    ∧ (create_wol_payload target).length = 102
    ∧ ∀ v : Nat,
      (build_wol_packet target iface (some v)).length = 120
      ∧ (build_wol_packet target iface (some v)).take 6 = List.replicate 6 0xFF
      ∧ ((build_wol_packet target iface (some v)).drop 6).take 6 = iface
      ∧ ((build_wol_packet target iface (some v)).drop 12).take 2 = [0x81, 0x00]
      ∧ ((build_wol_packet target iface (some v)).drop 14).take 2
          = [(v &&& 0x0FFF) / 256, (v &&& 0x0FFF) % 256]
      ∧ (v &&& 0x0FFF) / 256 < 16
      ∧ ((build_wol_packet target iface (some v)).drop 16).take 2 = [0x08, 0x42]
      ∧ (build_wol_packet target iface (some v)).drop 18
          = List.replicate 6 0xFF ++ (List.replicate 16 target).flatten
      ∧ build_wol_packet target iface (some v)
          = build_wol_packet target iface (some (v % 4096)) := by
  obtain ⟨a, b, c, d, e, f, rfl⟩ := list_eq_of_length_six ht
  obtain ⟨p, q, r, s, t, u, rfl⟩ := list_eq_of_length_six hi
  refine ⟨⟨rfl, rfl, rfl, rfl, rfl, rfl⟩, rfl, fun v => ⟨rfl, rfl, rfl, rfl, rfl, ?_, rfl, rfl, ?_⟩⟩
  · rw [and_fff_eq_mod]
    omega
  · have hm : v &&& 0x0FFF = v % 4096 &&& 0x0FFF := by
      rw [and_fff_eq_mod, and_fff_eq_mod]
      omega
    simp only [build_wol_packet, vlan_to_bytes, hm, Option.isSome_some]

/-- C2 witness: the layout theorem instantiated at the example of the spec:
target MAC and a concrete interface MAC, with VLAN id 0x0101. -/
theorem build_wol_packet_layout_witness :
    ((build_wol_packet [0x01, 0x23, 0x45, 0x67, 0x89, 0xAB]
        [0xDE, 0xAD, 0xBE, 0xEF, 0x00, 0x01] (some 0x0101)).drop 14).take 2
      = [0x01, 0x01] := by
  have h := build_wol_packet_layout [0x01, 0x23, 0x45, 0x67, 0x89, 0xAB]
    [0xDE, 0xAD, 0xBE, 0xEF, 0x00, 0x01] rfl rfl
  have h2 := (h.2.2 0x0101).2.2.2.2.1
  rw [h2]
  decide

/-- C8: health-check validation rejects an Http check with neither status
nor regex, a Port check whose ip does not parse as an IPv4/IPv6 literal
(here the literal "invalid_ip" of the spec), and a Shell check with neither status nor
regex, each with a BadHealthCheckDefinition error; it accepts an Http
check with a status set, a Port check with the valid literal
"192.168.1.1", and a Shell check with a regex set. -/
theorem validate_health_check_cases :
    (∀ url retry, ∃ m, validate_health_check (HealthCheck.Http url none retry none)
        = Except.error (ServerConfigError.BadHealthCheckDefinition m))
    ∧ (∀ port retry, ∃ m, validate_health_check (HealthCheck.Port "invalid_ip" port retry)
        = Except.error (ServerConfigError.BadHealthCheckDefinition m))
    ∧ (∀ command retry, ∃ m, validate_health_check (HealthCheck.Shell command retry none none)
        = Except.error (ServerConfigError.BadHealthCheckDefinition m))
    ∧ (∀ url st retry regex, validate_health_check (HealthCheck.Http url (some st) retry regex)
        = Except.ok ())
    ∧ (∀ port retry, validate_health_check (HealthCheck.Port "192.168.1.1" port retry)
        = Except.ok ())
    ∧ (∀ command retry st r, validate_health_check (HealthCheck.Shell command retry st (some r))
        = Except.ok ()) := by
  refine ⟨fun url retry => ⟨_, rfl⟩, fun port retry => ⟨_, rfl⟩, fun command retry => ⟨_, rfl⟩,
    fun url st retry regex => rfl, fun port retry => rfl, fun command retry st r => ?_⟩
  cases st <;> rfl

/-- C8 witness: the three passing examples of the spec, concretely. -/
theorem validate_health_check_cases_witness :
    validate_health_check (HealthCheck.Http "http://example.com" (some 200) 10 none)
        = Except.ok ()
    ∧ validate_health_check (HealthCheck.Port "192.168.1.1" 80 10) = Except.ok ()
    ∧ validate_health_check (HealthCheck.Shell "echo Hello" 10 none (some "Hello"))
        = Except.ok () :=
  ⟨validate_health_check_cases.2.2.2.1 "http://example.com" 200 10 none,
   validate_health_check_cases.2.2.2.2.1 80 10,
   validate_health_check_cases.2.2.2.2.2 "echo Hello" 10 none "Hello"⟩

/-- C6: finding an in-progress node fails immediately with the current
name of the current node, and on the 4-node cycle server1 through server4 given in
input order the result is CircularDependency of server1 (the node on the
call stack when the back-edge server4 to server1 is found), matching
test_circular_dependencies. -/
theorem circular_dependency_reports_current_node :
    (∀ (lookup : String → Option Server) (fuel : Nat) (server : Server) (st : DfsState),
      server.name ∈ st.visiting →
      depth_first_search lookup fuel server st
        = Except.error (ServerConfigError.CircularDependency server.name))
    ∧ determine_wakeup_order cycleServers
        = Except.error (ServerConfigError.CircularDependency "server1") := by
  constructor
  · intro lookup fuel server st h
    cases fuel with
    | zero => rfl
    | succ n =>
      simp only [depth_first_search]
      rw [if_pos h]
  · decide

/-- C6 witness: the back-edge rule applied to a concrete in-progress
state. -/
theorem circular_dependency_reports_current_node_witness :
    depth_first_search (fun _ => none) 3 (mkServer "a" []) ⟨[], ["a"], []⟩
      = Except.error (ServerConfigError.CircularDependency "a") :=
  circular_dependency_reports_current_node.1 (fun _ => none) 3 (mkServer "a" [])
    ⟨[], ["a"], []⟩ (by decide)

/-- The polling loop, advanced past n sleeping iterations: when the first
n evaluate attempts fail and none of them hits the timeout boundary, the
loop from the start equals the loop at attempt n with the accumulated
elapsed time. -/
lemma health_check_loop_advance (timeout retry : Nat) (evalR : Nat → Bool)
    (evalD : Nat → Nat) :
    ∀ n fuel, (∀ j, j < n → evalR j = false ∧ elapsed_at retry evalD j < timeout) →
      n ≤ fuel →
      health_check_loop timeout retry evalR evalD fuel 0 0
        = health_check_loop timeout retry evalR evalD (fuel - n) n
            (elapsed_at retry evalD n) := by
  intro n
  induction n with
  | zero => intro fuel _ _; simp [elapsed_at]
  | succ n ih =>
    intro fuel hprev hle
    have hrec := ih fuel (fun j hj => hprev j (by omega)) (by omega)
    rw [hrec]
    have hn := hprev n (by omega)
    have hfn : fuel - n = (fuel - (n + 1)) + 1 := by omega
    rw [hfn]
    show health_check_loop timeout retry evalR evalD ((fuel - (n + 1)) + 1) n
        (elapsed_at retry evalD n) = _
    simp only [health_check_loop]
    rw [if_neg (by omega), if_neg (by simp [hn.1])]
    rfl

/-- C3: the polling loop checks the timeout at the top of each iteration
and otherwise makes one evaluate attempt.  Provided the first n attempts
returned false without reaching the timeout: if the elapsed time at
iteration n has reached the timeout the check settles TimedOut; otherwise,
if attempt n returns true the check settles Ok — with no condition on how
long attempt n itself takes (evalD n is unconstrained), so an evaluate
call in progress is never interrupted and the timeout only takes effect at
the next iteration boundary. -/
theorem health_check_loop_spec (timeout retry : Nat) (evalR : Nat → Bool)
    (evalD : Nat → Nat) (n fuel : Nat)
    (hprev : ∀ j, j < n → evalR j = false ∧ elapsed_at retry evalD j < timeout)
    (hfuel : n < fuel) :
    (timeout ≤ elapsed_at retry evalD n →
      health_check_loop timeout retry evalR evalD fuel 0 0 = some CheckStatus.TimedOut)
    ∧ (elapsed_at retry evalD n < timeout → evalR n = true →
      health_check_loop timeout retry evalR evalD fuel 0 0 = some CheckStatus.Ok) := by
  have hadv := health_check_loop_advance timeout retry evalR evalD n fuel hprev (by omega)
  have hfn : fuel - n = (fuel - (n + 1)) + 1 := by omega
  rw [hfn] at hadv
  constructor
  · intro hto
    rw [hadv]
    simp only [health_check_loop]
    rw [if_pos hto]
  · intro hlt htrue
    rw [hadv]
    simp only [health_check_loop]
    rw [if_neg (by omega), if_pos htrue]

/-- C3 witness: attempts take 3 ticks, the retry interval is 2 ticks, the
second attempt succeeds at elapsed time 5 under a timeout of 10. -/
theorem health_check_loop_spec_witness :
    health_check_loop 10 2 (fun n => decide (n = 1)) (fun _ => 3) 5 0 0
      = some CheckStatus.Ok :=
  (health_check_loop_spec 10 2 (fun n => decide (n = 1)) (fun _ => 3) 1 5
    (by decide) (by omega)).2 (by decide) (by decide)

/-- The polling loop only ever settles as Ok or TimedOut. -/
lemma health_check_loop_result (timeout retry : Nat) (evalR : Nat → Bool)
    (evalD : Nat → Nat) :
    ∀ fuel attempt elapsed,
      health_check_loop timeout retry evalR evalD fuel attempt elapsed = none
      ∨ health_check_loop timeout retry evalR evalD fuel attempt elapsed
          = some CheckStatus.Ok
      ∨ health_check_loop timeout retry evalR evalD fuel attempt elapsed
          = some CheckStatus.TimedOut := by
  intro fuel
  induction fuel with
  | zero => intro attempt elapsed; left; rfl
  | succ n ih =>
    intro attempt elapsed
    simp only [health_check_loop]
    by_cases h1 : timeout ≤ elapsed
    · rw [if_pos h1]; right; right; rfl
    · rw [if_neg h1]
      by_cases h2 : evalR attempt = true
      · rw [if_pos h2]; right; left; rfl
      · rw [if_neg h2]; exact ih (attempt + 1) (elapsed + evalD attempt + retry)

/-- Every entry of the fan-out is a settled Ok, a settled TimedOut, or
not yet settled. -/
lemma run_checks_result (evalR : Nat → Nat → Bool) (evalD : Nat → Nat → Nat) (fuel : Nat) :
    ∀ checks j, ∀ r ∈ run_checks evalR evalD fuel checks j,
      r = none ∨ r = some CheckStatus.Ok ∨ r = some CheckStatus.TimedOut := by
  intro checks
  induction checks with
  | nil => intro j r hr; simp [run_checks] at hr
  | cons c rest ih =>
    intro j r hr
    simp only [run_checks, List.mem_cons] at hr
    cases hr with
    | inl h => rw [h]; exact health_check_loop_result c.timeout c.retry _ _ fuel 0 0
    | inr h => exact ih (j + 1) r h

/-- When the fan-in settles, every task had settled, with the settled
values in task order. -/
lemma sequence_settled_some_imp :
    ∀ (l : List (Option CheckStatus)) (rs : List CheckStatus),
      sequence_settled l = some rs → l = rs.map some := by
  intro l
  induction l with
  | nil =>
    intro rs h
    simp only [sequence_settled, Option.some.injEq] at h
    rw [← h]
    rfl
  | cons hd tl ih =>
    intro rs h
    cases hd with
    | none => simp [sequence_settled] at h
    | some r =>
      simp only [sequence_settled, Option.map_eq_some'] at h
      obtain ⟨l1, hl1, heq⟩ := h
      rw [← heq, List.map_cons, ← ih l1 hl1]

/-- A never-settling task blocks the fan-in. -/
lemma sequence_settled_eq_none_iff :
    ∀ l : List (Option CheckStatus), sequence_settled l = none ↔ none ∈ l := by
  intro l
  induction l with
  | nil => simp [sequence_settled]
  | cons hd tl ih =>
    cases hd with
    | none => simp [sequence_settled]
    | some r =>
      simp only [sequence_settled, List.mem_cons, Option.map_eq_none']
      rw [← ih]
      simp

/-- The mutable timeout flag of the await loop is the any-fold of the
settled results. -/
lemma foldl_or_eq_any (l : List CheckStatus) (b : Bool) :
    l.foldl (fun acc r => acc || (r == CheckStatus.TimedOut)) b
      = (b || l.any (fun r => r == CheckStatus.TimedOut)) := by
  induction l generalizing b with
  | nil => simp
  | cons hd tl ih => simp [List.foldl_cons, List.any_cons, ih, Bool.or_assoc]

/-- C4: the fan-out runs one polling task per check against its
own oracle slot, so the settled outcome of a check never depends on its
siblings (splitting the check list splits the outcome list, position by
position); the aggregate is assigned only once every task has settled —
if any task is unsettled there is no aggregate, even when a settled
sibling already timed out — and it is TimedOut exactly when at least one
task settled TimedOut, and Ok exactly when every task settled Ok. -/
theorem perform_health_checks_spec (checks : List Check) (evalR : Nat → Nat → Bool)
    (evalD : Nat → Nat → Nat) (fuel : Nat) :
    (∀ (pre post : List Check) (j : Nat),
      run_checks evalR evalD fuel (pre ++ post) j
        = run_checks evalR evalD fuel pre j
            ++ run_checks evalR evalD fuel post (j + pre.length))
    ∧ ((perform_health_checks checks evalR evalD fuel).isSome
        ↔ ∀ r ∈ run_checks evalR evalD fuel checks 0, r.isSome)
    ∧ (perform_health_checks checks evalR evalD fuel = some ServerStatus.TimedOut
        ↔ (∀ r ∈ run_checks evalR evalD fuel checks 0, r.isSome)
          ∧ some CheckStatus.TimedOut ∈ run_checks evalR evalD fuel checks 0)
    ∧ (perform_health_checks checks evalR evalD fuel = some ServerStatus.Ok
        ↔ ∀ r ∈ run_checks evalR evalD fuel checks 0, r = some CheckStatus.Ok) := by
  have hsplit : ∀ (pre post : List Check) (j : Nat),
      run_checks evalR evalD fuel (pre ++ post) j
        = run_checks evalR evalD fuel pre j
            ++ run_checks evalR evalD fuel post (j + pre.length) := by
    intro pre
    induction pre with
    | nil => intro post j; simp [run_checks]
    | cons c rest ih =>
      intro post j
      simp only [List.cons_append, run_checks, List.length_cons, List.append_eq]
      rw [ih post (j + 1)]
      rw [show j + 1 + rest.length = j + (rest.length + 1) by omega]
  refine ⟨hsplit, ?_, ?_, ?_⟩
  · cases hseq : sequence_settled (run_checks evalR evalD fuel checks 0) with
    | none =>
      have hp : perform_health_checks checks evalR evalD fuel = none := by
        unfold perform_health_checks
        rw [hseq]
      rw [sequence_settled_eq_none_iff] at hseq
      rw [hp]
      simp only [Option.isSome_none, Bool.false_eq_true, false_iff]
      intro hall
      have := hall none hseq
      simp at this
    | some rs =>
      have hp : perform_health_checks checks evalR evalD fuel
          = some (if rs.foldl (fun b r => b || (r == CheckStatus.TimedOut)) false
              then ServerStatus.TimedOut else ServerStatus.Ok) := by
        unfold perform_health_checks
        rw [hseq]
      have hmap := sequence_settled_some_imp _ rs hseq
      rw [hp]
      simp only [Option.isSome_some, true_iff]
      intro r hr
      rw [hmap] at hr
      obtain ⟨x, _, rfl⟩ := List.mem_map.mp hr
      rfl
  · cases hseq : sequence_settled (run_checks evalR evalD fuel checks 0) with
    | none =>
      have hp : perform_health_checks checks evalR evalD fuel = none := by
        unfold perform_health_checks
        rw [hseq]
      rw [sequence_settled_eq_none_iff] at hseq
      rw [hp]
      constructor
      · intro h; cases h
      · rintro ⟨hall, _⟩
        have := hall none hseq
        simp at this
    | some rs =>
      have hp : perform_health_checks checks evalR evalD fuel
          = some (if rs.foldl (fun b r => b || (r == CheckStatus.TimedOut)) false
              then ServerStatus.TimedOut else ServerStatus.Ok) := by
        unfold perform_health_checks
        rw [hseq]
      have hmap := sequence_settled_some_imp _ rs hseq
      rw [hp, foldl_or_eq_any]
      simp only [Bool.false_or]
      constructor
      · intro h
        have hany : rs.any (fun r => r == CheckStatus.TimedOut) = true := by
          by_contra hc
          rw [Bool.not_eq_true] at hc
          rw [hc] at h
          simp at h
        obtain ⟨x, hx, hbeq⟩ := List.any_eq_true.mp hany
        rw [beq_iff_eq] at hbeq
        subst hbeq
        constructor
        · intro r hr
          rw [hmap] at hr
          obtain ⟨y, _, rfl⟩ := List.mem_map.mp hr
          rfl
        · rw [hmap]
          exact List.mem_map.mpr ⟨CheckStatus.TimedOut, hx, rfl⟩
      · rintro ⟨_, hmem⟩
        rw [hmap] at hmem
        obtain ⟨y, hy, heq⟩ := List.mem_map.mp hmem
        have hyeq : y = CheckStatus.TimedOut := by
          injection heq
        subst hyeq
        have hany : rs.any (fun r => r == CheckStatus.TimedOut) = true :=
          List.any_eq_true.mpr ⟨CheckStatus.TimedOut, hy, by simp⟩
        rw [hany]
        rfl
  · cases hseq : sequence_settled (run_checks evalR evalD fuel checks 0) with
    | none =>
      have hp : perform_health_checks checks evalR evalD fuel = none := by
        unfold perform_health_checks
        rw [hseq]
      rw [sequence_settled_eq_none_iff] at hseq
      rw [hp]
      constructor
      · intro h; cases h
      · intro hall
        have := hall none hseq
        cases this
    | some rs =>
      have hp : perform_health_checks checks evalR evalD fuel
          = some (if rs.foldl (fun b r => b || (r == CheckStatus.TimedOut)) false
              then ServerStatus.TimedOut else ServerStatus.Ok) := by
        unfold perform_health_checks
        rw [hseq]
      have hmap := sequence_settled_some_imp _ rs hseq
      rw [hp, foldl_or_eq_any]
      simp only [Bool.false_or]
      constructor
      · intro h
        have hany : rs.any (fun r => r == CheckStatus.TimedOut) = false := by
          by_contra hc
          rw [Bool.not_eq_false] at hc
          rw [hc] at h
          simp at h
        intro r hr
        rw [hmap] at hr
        obtain ⟨y, hy, rfl⟩ := List.mem_map.mp hr
        have hrange := run_checks_result evalR evalD fuel checks 0 (some y)
          (by rw [hmap]; exact List.mem_map.mpr ⟨y, hy, rfl⟩)
        have hne : y ≠ CheckStatus.TimedOut := by
          intro hcon
          subst hcon
          have hx := List.any_eq_true.mpr
            (⟨CheckStatus.TimedOut, hy, by simp⟩ :
              ∃ x ∈ rs, (x == CheckStatus.TimedOut) = true)
          rw [hany] at hx
          cases hx
        rcases hrange with h1 | h2 | h3
        · cases h1
        · rw [h2]
        · exfalso; apply hne; injection h3
      · intro hall
        have hany : rs.any (fun r => r == CheckStatus.TimedOut) = false := by
          rw [Bool.eq_false_iff]
          intro hc
          obtain ⟨x, hx, hbeq⟩ := List.any_eq_true.mp hc
          rw [beq_iff_eq] at hbeq
          subst hbeq
          have hmem := hall (some CheckStatus.TimedOut)
            (by rw [hmap]; exact List.mem_map.mpr ⟨CheckStatus.TimedOut, hx, rfl⟩)
          cases hmem
        rw [hany]
        rfl

/-- C4 witness: two checks, the first settling Ok on its first attempt,
the second timing out immediately (timeout 0); the aggregate waits for
both and is TimedOut. -/
theorem perform_health_checks_spec_witness :
    perform_health_checks
        [⟨HealthCheck.Port "127.0.0.1" 80 1, 1, 10⟩, ⟨HealthCheck.Port "127.0.0.1" 81 1, 1, 0⟩]
        (fun _ _ => true) (fun _ _ => 1) 3
      = some ServerStatus.TimedOut := by
  have h := (perform_health_checks_spec
      [⟨HealthCheck.Port "127.0.0.1" 80 1, 1, 10⟩, ⟨HealthCheck.Port "127.0.0.1" 81 1, 1, 0⟩]
      (fun _ _ => true) (fun _ _ => 1) 3).2.2.1
  exact h.mpr (by decide)

/-- C10: a server with an empty check list settles Ok immediately — the
fan-in awaits zero tasks, no check runs and no timeout can occur — and the
orchestration loop proceeds directly to the next server in the wake
order. -/
theorem orchestrate_empty_checks (wolOk : Nat → Bool) (evalR : Nat → Nat → Nat → Bool)
    (evalD : Nat → Nat → Nat → Nat) (fuel : Nat) (s : OServer) (rest : List OServer)
    (idx : Nat) (hchecks : s.check = []) (hwol : wolOk idx = true) :
    perform_health_checks s.check (evalR idx) (evalD idx) fuel = some ServerStatus.Ok
    ∧ orchestrate wolOk evalR evalD fuel (s :: rest) idx
      = (Event.WolSent s.name :: Event.ServerSettled s.name ServerStatus.Ok ::
          (orchestrate wolOk evalR evalD fuel rest (idx + 1)).1,
        (orchestrate wolOk evalR evalD fuel rest (idx + 1)).2) := by
  have hperf : perform_health_checks s.check (evalR idx) (evalD idx) fuel
      = some ServerStatus.Ok := by
    rw [hchecks]
    rfl
  refine ⟨hperf, ?_⟩
  simp only [orchestrate, hwol, if_true, hperf]

/-- C10 witness: a concrete checkless server followed by an empty tail. -/
theorem orchestrate_empty_checks_witness :
    orchestrate (fun _ => true) (fun _ _ _ => true) (fun _ _ _ => 1) 3
        [⟨"a", "00:11:22:33:44:55", "eth0", none, [], []⟩] 0
      = ([Event.WolSent "a", Event.ServerSettled "a" ServerStatus.Ok],
         RunOutcome.completed) := by
  have h := (orchestrate_empty_checks (fun _ => true) (fun _ _ _ => true) (fun _ _ _ => 1) 3
    ⟨"a", "00:11:22:33:44:55", "eth0", none, [], []⟩ [] 0 rfl rfl).2
  rw [h]
  rfl

/-! Invariants of the depth-first topological sort. -/

lemma goodState_initial (lookup : String → Option Server) :
    GoodState lookup ⟨[], [], []⟩ := by
  refine ⟨fun n => Iff.rfl, List.nodup_nil, fun n hn => absurd hn (List.not_mem_nil n), ?_⟩
  intro i hi
  simp at hi

lemma map_server_names_name (servers : List Server) (n : String) (t : Server)
    (h : map_server_names servers n = some t) : t.name = n := by
  have hp := List.find?_some h
  simpa using hp

lemma map_server_names_mem (servers : List Server) (n : String) (t : Server)
    (h : map_server_names servers n = some t) : t ∈ servers := by
  have hm := List.mem_of_find?_eq_some h
  exact List.mem_reverse.mp hm

lemma find_name_self :
    ∀ l : List Server, (l.map Server.name).Nodup →
      ∀ s ∈ l, l.find? (fun t => t.name == s.name) = some s := by
  intro l
  induction l with
  | nil => intro _ s hs; simp at hs
  | cons t rest ih =>
    intro hnd s hs
    simp only [List.map_cons, List.nodup_cons] at hnd
    cases List.mem_cons.mp hs with
    | inl heq =>
      subst heq
      rw [List.find?_cons_of_pos]
      simp
    | inr hmem =>
      have hne : t.name ≠ s.name := by
        intro hc
        exact hnd.1 (hc ▸ List.mem_map.mpr ⟨s, hmem, rfl⟩)
      rw [List.find?_cons_of_neg]
      · exact ih hnd.2 s hmem
      · simp [hne]

/-- With pairwise distinct names, the name map sends the name of every server
back to that server. -/
lemma map_server_names_self (servers : List Server)
    (hnd : (servers.map Server.name).Nodup) :
    ∀ s ∈ servers, map_server_names servers s.name = some s := by
  intro s hs
  unfold map_server_names
  have hnd' : (servers.reverse.map Server.name).Nodup := by
    rw [List.map_reverse]
    exact List.nodup_reverse.mpr hnd
  exact find_name_self servers.reverse hnd' s (List.mem_reverse.mpr hs)

/-- The dependency loop preserves the DFS invariant: parametric in the
step function (instantiated with the recursive DFS call), it returns a
state whose visiting set is untouched, whose sorted list has only grown by
names not previously in progress, and in which every dependency has been
visited. -/
lemma dfsDeps_ok_master (lookup : String → Option Server)
    (hlook : ∀ n t, lookup n = some t → t.name = n)
    (step : Server → DfsState → Except ServerConfigError DfsState)
    (hstep : ∀ (server : Server) (st st' : DfsState),
      lookup server.name = some server →
      step server st = Except.ok st' →
      GoodState lookup st →
      st'.visiting = st.visiting
      ∧ (∃ L, st'.sorted = st.sorted ++ L
          ∧ st'.visited = L.reverse ++ st.visited
          ∧ ∀ n ∈ L, n ∉ st.visiting)
      ∧ GoodState lookup st'
      ∧ server.name ∈ st'.visited) :
    ∀ (deps : List String) (st st' : DfsState),
      dfsDeps step lookup deps st = Except.ok st' →
      GoodState lookup st →
      st'.visiting = st.visiting
      ∧ (∃ L, st'.sorted = st.sorted ++ L
          ∧ st'.visited = L.reverse ++ st.visited
          ∧ ∀ n ∈ L, n ∉ st.visiting)
      ∧ GoodState lookup st'
      ∧ ∀ d ∈ deps, d ∈ st'.visited := by
  intro deps
  induction deps with
  | nil =>
    intro st st' hok hgood
    simp only [dfsDeps] at hok
    cases hok
    exact ⟨rfl, ⟨[], by simp, by simp, by simp⟩, hgood, by simp⟩
  | cons d rest ih =>
    intro st st' hok hgood
    simp only [dfsDeps] at hok
    split at hok
    · cases hok
    · rename_i depServer hlk
      split at hok
      · cases hok
      · rename_i st1 hstp
        have hname : depServer.name = d := hlook d depServer hlk
        have hself : lookup depServer.name = some depServer := by rw [hname]; exact hlk
        obtain ⟨hv1, ⟨L1, hs1, hvis1, hfresh1⟩, hg1, hmem1⟩ :=
          hstep depServer st st1 hself hstp hgood
        obtain ⟨hv2, ⟨L2, hs2, hvis2, hfresh2⟩, hg2, hmem2⟩ := ih st1 st' hok hg1
        refine ⟨hv2.trans hv1, ⟨L1 ++ L2, ?_, ?_, ?_⟩, hg2, ?_⟩
        · rw [hs2, hs1, List.append_assoc]
        · rw [hvis2, hvis1, List.reverse_append, List.append_assoc]
        · intro n hn
          cases List.mem_append.mp hn with
          | inl h => exact hfresh1 n h
          | inr h =>
            have := hfresh2 n h
            rw [hv1] at this
            exact this
        · intro d' hd'
          cases List.mem_cons.mp hd' with
          | inl heq =>
            subst heq
            rw [hvis2]
            rw [← hname]
            exact List.mem_append_right _ hmem1
          | inr hmem =>
            exact hmem2 d' hmem

/-- The DFS preserves the invariant: a successful run leaves the visiting
set untouched, appends to sorted only names not in progress on entry, and
ends with the entry node visited. -/
lemma dfs_ok_master (lookup : String → Option Server)
    (hlook : ∀ n t, lookup n = some t → t.name = n) :
    ∀ (fuel : Nat) (server : Server) (st st' : DfsState),
      lookup server.name = some server →
      depth_first_search lookup fuel server st = Except.ok st' →
      GoodState lookup st →
      st'.visiting = st.visiting
      ∧ (∃ L, st'.sorted = st.sorted ++ L
          ∧ st'.visited = L.reverse ++ st.visited
          ∧ ∀ n ∈ L, n ∉ st.visiting)
      ∧ GoodState lookup st'
      ∧ server.name ∈ st'.visited := by
  intro fuel
  induction fuel with
  | zero => intro server st st' _ hok _; cases hok
  | succ fuel ih =>
    intro server st st' hself hok hgood
    simp only [depth_first_search] at hok
    by_cases hvisg : server.name ∈ st.visiting
    · rw [if_pos hvisg] at hok; cases hok
    · rw [if_neg hvisg] at hok
      by_cases hvisd : server.name ∈ st.visited
      · rw [if_pos hvisd] at hok
        cases hok
        exact ⟨rfl, ⟨[], by simp, by simp, by simp⟩, hgood, hvisd⟩
      · rw [if_neg hvisd] at hok
        split at hok
        · cases hok
        · rename_i st2 hdeps
          cases hok
          have hgood1 : GoodState lookup { st with visiting := server.name :: st.visiting } :=
            ⟨hgood.mem_iff, hgood.nodup, hgood.domain, hgood.topo⟩
          obtain ⟨hv2, ⟨M, hs2, hvis2, hfresh2⟩, hg2, hmem2⟩ :=
            dfsDeps_ok_master lookup hlook
              (fun srv st1 => depth_first_search lookup fuel srv st1)
              (fun srv s1 s2 hself' hok' hg' => ih srv s1 s2 hself' hok' hg')
              server.depends { st with visiting := server.name :: st.visiting } st2
              hdeps hgood1
          have hfreshM : ∀ n ∈ M, n ∉ st.visiting ∧ n ≠ server.name := by
            intro n hn
            have hf := hfresh2 n hn
            simp only [List.mem_cons, not_or] at hf
            exact ⟨hf.2, hf.1⟩
          have hnameM : server.name ∉ M := by
            intro hc
            exact (hfreshM server.name hc).2 rfl
          have hnotsorted : server.name ∉ st.sorted := fun hc =>
            hvisd ((hgood.mem_iff server.name).mpr hc)
          have hnots2 : server.name ∉ st2.sorted := by
            rw [hs2]
            intro hc
            cases List.mem_append.mp hc with
            | inl h => exact hnotsorted h
            | inr h => exact hnameM h
          refine ⟨?_, ⟨M ++ [server.name], ?_, ?_, ?_⟩, ?_, ?_⟩
          · show st2.visiting.erase server.name = st.visiting
            rw [hv2]
            exact List.erase_cons_head server.name st.visiting
          · show st2.sorted ++ [server.name] = st.sorted ++ (M ++ [server.name])
            rw [hs2, List.append_assoc]
          · show server.name :: st2.visited = (M ++ [server.name]).reverse ++ st.visited
            rw [hvis2, List.reverse_append]
            rfl
          · intro n hn
            cases List.mem_append.mp hn with
            | inl h => exact (hfreshM n h).1
            | inr h =>
              have : n = server.name := by simpa using h
              subst this
              exact hvisg
          · -- the new state satisfies the invariant
            refine ⟨?_, ?_, ?_, ?_⟩
            · intro n
              show n ∈ server.name :: st2.visited ↔ n ∈ st2.sorted ++ [server.name]
              simp only [List.mem_cons, List.mem_append, List.mem_singleton]
              rw [hg2.mem_iff n]
              tauto
            · show (st2.sorted ++ [server.name]).Nodup
              rw [List.nodup_append]
              exact ⟨hg2.nodup, List.nodup_singleton _, by
                intro a ha hb
                have : a = server.name := by simpa using hb
                subst this
                exact hnots2 ha⟩
            · intro n hn
              show (lookup n).isSome
              cases List.mem_append.mp hn with
              | inl h => exact hg2.domain n h
              | inr h =>
                have : n = server.name := by simpa using h
                subst this
                rw [hself]
                rfl
            · intro i hi s hlk d hd
              show d ∈ (st2.sorted ++ [server.name]).take i
              have hlen : (st2.sorted ++ [server.name]).length = st2.sorted.length + 1 := by
                simp
              by_cases hcase : i < st2.sorted.length
              · have hget : (st2.sorted ++ [server.name])[i] = st2.sorted[i] :=
                  List.getElem_append_left hcase
                rw [hget] at hlk
                have hmem := hg2.topo i hcase s hlk d hd
                rw [List.take_append_of_le_length (by omega)]
                exact hmem
              · have hieq : i = st2.sorted.length := by
                  rw [hlen] at hi
                  omega
                subst hieq
                have hget : (st2.sorted ++ [server.name])[st2.sorted.length] = server.name :=
                  List.getElem_concat_length st2.sorted server.name st2.sorted.length rfl hi
                rw [hget] at hlk
                rw [hself] at hlk
                have hseq : s = server := by
                  injection hlk with h
                  exact h.symm
                subst hseq
                rw [List.take_append_of_le_length (by omega), List.take_length]
                have hdv := hmem2 d hd
                rw [hvis2] at hdv
                have : d ∈ st2.sorted := by
                  rcases List.mem_append.mp hdv with h | h
                  · rw [hs2]
                    exact List.mem_append_right _ (List.mem_reverse.mp h)
                  · rw [hs2]
                    exact List.mem_append_left _ ((hgood.mem_iff d).mp h)
                exact this
          · exact List.mem_cons_self server.name st2.visited

/-- The top-level loop preserves the invariant and visits every server. -/
lemma dfsAll_ok_master (lookup : String → Option Server)
    (hlook : ∀ n t, lookup n = some t → t.name = n) (fuel : Nat) :
    ∀ (servers : List Server) (st st' : DfsState),
      (∀ s ∈ servers, lookup s.name = some s) →
      dfsAll lookup fuel servers st = Except.ok st' →
      GoodState lookup st →
      (∃ L, st'.sorted = st.sorted ++ L ∧ st'.visited = L.reverse ++ st.visited)
      ∧ GoodState lookup st'
      ∧ ∀ s ∈ servers, s.name ∈ st'.visited := by
  intro servers
  induction servers with
  | nil =>
    intro st st' _ hok hgood
    simp only [dfsAll] at hok
    cases hok
    exact ⟨⟨[], by simp, by simp⟩, hgood, by simp⟩
  | cons s rest ih =>
    intro st st' hself hok hgood
    simp only [dfsAll] at hok
    by_cases hv : s.name ∈ st.visited
    · rw [if_pos hv] at hok
      obtain ⟨⟨L, hs', hv'⟩, hg', hmem'⟩ :=
        ih st st' (fun t ht => hself t (List.mem_cons_of_mem s ht)) hok hgood
      refine ⟨⟨L, hs', hv'⟩, hg', ?_⟩
      intro t ht
      cases List.mem_cons.mp ht with
      | inl heq =>
        subst heq
        rw [hv']
        exact List.mem_append_right _ hv
      | inr hmem => exact hmem' t hmem
    · rw [if_neg hv] at hok
      split at hok
      · cases hok
      · rename_i st1 hdfs
        obtain ⟨_, ⟨L1, hs1, hv1, _⟩, hg1, hmem1⟩ :=
          dfs_ok_master lookup hlook fuel s st st1
            (hself s (List.mem_cons_self s rest)) hdfs hgood
        obtain ⟨⟨L2, hs2, hv2⟩, hg2, hmem2⟩ :=
          ih st1 st' (fun t ht => hself t (List.mem_cons_of_mem s ht)) hok hg1
        refine ⟨⟨L1 ++ L2, ?_, ?_⟩, hg2, ?_⟩
        · rw [hs2, hs1, List.append_assoc]
        · rw [hv2, hv1, List.reverse_append, List.append_assoc]
        · intro t ht
          cases List.mem_cons.mp ht with
          | inl heq =>
            subst heq
            rw [hv2]
            exact List.mem_append_right _ hmem1
          | inr hmem => exact hmem2 t hmem

/-- Success of determine_wakeup_order, unpacked: the final DFS state is
well formed, every input server was visited, and the output is the sorted
names mapped through the name map. -/
lemma determine_wakeup_order_ok (servers out : List Server)
    (hnd : (servers.map Server.name).Nodup)
    (hok : determine_wakeup_order servers = Except.ok out) :
    ∃ st : DfsState,
      GoodState (map_server_names servers) st
      ∧ (∀ s ∈ servers, s.name ∈ st.sorted)
      ∧ out = st.sorted.filterMap (map_server_names servers) := by
  unfold determine_wakeup_order at hok
  split at hok
  · cases hok
  · rename_i st hall
    cases hok
    obtain ⟨⟨L, hs, hvd⟩, hg, hmem⟩ :=
      dfsAll_ok_master (map_server_names servers) (map_server_names_name servers)
        (servers.length + 1) servers ⟨[], [], []⟩ st
        (map_server_names_self servers hnd) hall (goodState_initial _)
    exact ⟨st, hg, fun s hsm => (hg.mem_iff s.name).mp (hmem s hsm), rfl⟩

/-- Mapping the sorted names through the name map and reading the names
back is the identity. -/
lemma filterMap_lookup_names (lookup : String → Option Server)
    (hlook : ∀ n t, lookup n = some t → t.name = n) :
    ∀ names : List String, (∀ n ∈ names, (lookup n).isSome) →
      (names.filterMap lookup).map Server.name = names := by
  intro names
  induction names with
  | nil => intro _; rfl
  | cons n rest ih =>
    intro hdom
    cases hlk : lookup n with
    | none =>
      have := hdom n (List.mem_cons_self n rest)
      rw [hlk] at this
      cases this
    | some t =>
      simp only [List.filterMap_cons, hlk, List.map_cons]
      rw [ih (fun m hm => hdom m (List.mem_cons_of_mem n hm)), hlook n t hlk]

/-- C1: whenever the resolver succeeds on servers with pairwise distinct
names, every dependency name D of an input server S labels an output
position strictly before an output position labelled S; and the spec
fan-in example resolves to exactly [server_c, server_b, server_a],
input order breaking the tie between independent nodes. -/
theorem wakeup_order_respects_depends (servers out : List Server)
    (hnd : (servers.map Server.name).Nodup)
    (hok : determine_wakeup_order servers = Except.ok out) :
    (∀ s ∈ servers, ∀ d ∈ s.depends,
      ∃ i j : Nat, i < j ∧ ∃ hj : j < out.length, ∃ hi : i < out.length,
        out[i].name = d ∧ out[j].name = s.name)
    ∧ (determine_wakeup_order faninServers).map (fun l => l.map Server.name)
        = Except.ok ["server_c", "server_b", "server_a"] := by
  refine ⟨?_, by decide⟩
  intro s hs d hd
  obtain ⟨st, hg, hmem, hout⟩ := determine_wakeup_order_ok servers out hnd hok
  have hnames : out.map Server.name = st.sorted := by
    rw [hout]
    exact filterMap_lookup_names _ (map_server_names_name servers) st.sorted hg.domain
  have hlen : out.length = st.sorted.length := by
    rw [← hnames, List.length_map]
  obtain ⟨j, hj, hjget⟩ := List.mem_iff_getElem.mp (hmem s hs)
  have hlkj : map_server_names servers st.sorted[j] = some s := by
    rw [hjget]
    exact map_server_names_self servers hnd s hs
  have htake := hg.topo j hj s hlkj d hd
  obtain ⟨i, hi, higet⟩ := List.mem_iff_getElem.mp htake
  have hilt : i < j := by
    have h := hi
    simp only [List.length_take] at h
    omega
  have hisorted : i < st.sorted.length := by omega
  have higet' : st.sorted[i] = d := by
    rw [← higet, List.getElem_take]
  have hjout : j < out.length := by omega
  have hiout : i < out.length := by omega
  have hgetname : ∀ k (hk1 : k < out.length) (hk2 : k < st.sorted.length),
      out[k].name = st.sorted[k] := by
    intro k hk1 hk2
    have hkm : k < (out.map Server.name).length := by rw [List.length_map]; omega
    have h1 : (out.map Server.name)[k] = out[k].name := List.getElem_map Server.name
    rw [← h1]
    simp only [hnames]
  refine ⟨i, j, hilt, hjout, hiout, ?_, ?_⟩
  · rw [hgetname i hiout hisorted]
    exact higet'
  · rw [hgetname j hjout hj]
    exact hjget

/-- C1 witness: the ordering statement read off the fan-in example —
server_b precedes server_a in the resolved order. -/
theorem wakeup_order_respects_depends_witness :
    ∃ i j : Nat, i < j ∧ ∃ hj : j < faninOrder.length, ∃ hi : i < faninOrder.length,
      faninOrder[i].name = "server_b" ∧ faninOrder[j].name = "server_a" :=
  (wakeup_order_respects_depends faninServers faninOrder (by decide) (by decide)).1
    (mkServer "server_a" ["server_b", "server_c"]) (by decide) "server_b" (by decide)

/-- Mapping a list of servers to names and back through the name map is
the identity when the map sends each of their names to themselves. -/
lemma filterMap_map_name_self (lookup : String → Option Server) :
    ∀ l : List Server, (∀ s ∈ l, lookup s.name = some s) →
      (l.map Server.name).filterMap lookup = l := by
  intro l
  induction l with
  | nil => intro _; rfl
  | cons s rest ih =>
    intro hself
    simp only [List.map_cons, List.filterMap_cons, hself s (List.mem_cons_self s rest)]
    rw [ih (fun t ht => hself t (List.mem_cons_of_mem s ht))]

/-- C9: on inputs with pairwise distinct names, a successful wake order is
a permutation of the input — every input server appears exactly once and
nothing else appears. -/
theorem wakeup_order_is_permutation (servers out : List Server)
    (hnd : (servers.map Server.name).Nodup)
    (hok : determine_wakeup_order servers = Except.ok out) :
    out.Perm servers := by
  obtain ⟨st, hg, hmem, hout⟩ := determine_wakeup_order_ok servers out hnd hok
  have hsub1 : st.sorted ⊆ servers.map Server.name := by
    intro n hn
    obtain ⟨t, hteq⟩ := Option.isSome_iff_exists.mp (hg.domain n hn)
    have htm := map_server_names_mem servers n t hteq
    have hname := map_server_names_name servers n t hteq
    exact hname ▸ List.mem_map.mpr ⟨t, htm, rfl⟩
  have hsub2 : servers.map Server.name ⊆ st.sorted := by
    intro n hn
    obtain ⟨s, hs, rfl⟩ := List.mem_map.mp hn
    exact hmem s hs
  have hperm : st.sorted.Perm (servers.map Server.name) :=
    (List.perm_ext_iff_of_nodup hg.nodup hnd).mpr
      (fun a => ⟨fun h => hsub1 h, fun h => hsub2 h⟩)
  have hfm := hperm.filterMap (map_server_names servers)
  rw [filterMap_map_name_self (map_server_names servers) servers
    (map_server_names_self servers hnd)] at hfm
  rw [hout]
  exact hfm

/-- C9 witness: the fan-in example's output is a permutation of its
input. -/
theorem wakeup_order_is_permutation_witness : faninOrder.Perm faninServers :=
  wakeup_order_is_permutation faninServers faninOrder (by decide) (by decide)

/-- An UndefinedDependency error of the dependency loop always names an
absent map key. -/
lemma dfsDeps_undef (lookup : String → Option Server)
    (step : Server → DfsState → Except ServerConfigError DfsState)
    (hstep : ∀ srv st n, step srv st
        = Except.error (ServerConfigError.UndefinedDependency n) → lookup n = none) :
    ∀ (deps : List String) (st : DfsState) (n : String),
      dfsDeps step lookup deps st
          = Except.error (ServerConfigError.UndefinedDependency n) →
      lookup n = none := by
  intro deps
  induction deps with
  | nil => intro st n h; simp only [dfsDeps] at h; cases h
  | cons d rest ih =>
    intro st n h
    simp only [dfsDeps] at h
    split at h
    · rename_i hlk
      injection h with h1
      injection h1 with h2
      subst h2
      exact hlk
    · rename_i depServer hlk
      split at h
      · rename_i e hstp
        injection h with h1
        subst h1
        exact hstep depServer st n hstp
      · rename_i st1 hstp
        exact ih st1 n h

/-- An UndefinedDependency error of the DFS always names an absent map
key. -/
lemma dfs_undef (lookup : String → Option Server) :
    ∀ (fuel : Nat) (server : Server) (st : DfsState) (n : String),
      depth_first_search lookup fuel server st
          = Except.error (ServerConfigError.UndefinedDependency n) →
      lookup n = none := by
  intro fuel
  induction fuel with
  | zero =>
    intro server st n h
    simp only [depth_first_search] at h
    injection h with h1
    cases h1
  | succ fuel ih =>
    intro server st n h
    simp only [depth_first_search] at h
    by_cases hvisg : server.name ∈ st.visiting
    · rw [if_pos hvisg] at h
      injection h with h1
      cases h1
    · rw [if_neg hvisg] at h
      by_cases hvisd : server.name ∈ st.visited
      · rw [if_pos hvisd] at h; cases h
      · rw [if_neg hvisd] at h
        split at h
        · rename_i e hdeps
          injection h with h1
          subst h1
          exact dfsDeps_undef lookup _ (fun srv s1 m hm => ih srv s1 m hm)
            server.depends _ n hdeps
        · cases h

/-- An UndefinedDependency error of the top-level loop always names an
absent map key. -/
lemma dfsAll_undef (lookup : String → Option Server) (fuel : Nat) :
    ∀ (servers : List Server) (st : DfsState) (n : String),
      dfsAll lookup fuel servers st
          = Except.error (ServerConfigError.UndefinedDependency n) →
      lookup n = none := by
  intro servers
  induction servers with
  | nil => intro st n h; simp only [dfsAll] at h; cases h
  | cons s rest ih =>
    intro st n h
    simp only [dfsAll] at h
    by_cases hv : s.name ∈ st.visited
    · rw [if_pos hv] at h
      exact ih st n h
    · rw [if_neg hv] at h
      split at h
      · rename_i e hdfs
        injection h with h1
        subst h1
        exact dfs_undef lookup fuel s st n hdfs
      · rename_i st1 hdfs
        exact ih st1 n h

/-- C7 counterexample: with the single server a depending on the two
undefined names x and y (in that order), resolution fails with
UndefinedDependency of x, not of y — so a missing name is not always the
one the error carries, refuting the claim as universally stated. -/
theorem undefined_dependency_counterexample :
    ("y" ∈ (mkServer "a" ["x", "y"]).depends)
    ∧ (cexServers.all (fun t => t.name != "y") = true)
    ∧ determine_wakeup_order cexServers
        = Except.error (ServerConfigError.UndefinedDependency "x")
    ∧ determine_wakeup_order cexServers
        ≠ Except.error (ServerConfigError.UndefinedDependency "y") := by decide

/-- C7 (amended): if the depends list of any server names no server (names
pairwise distinct), resolution fails with some configuration error;
every UndefinedDependency error the resolver can return names a missing
dependency (though not necessarily the given one, and a cycle may be
reported instead); the parse pipeline propagates the failure; and a run of
main aborts before any WOL frame is transmitted and before any health
check runs (its event trace is empty). -/
theorem undefined_dependency_fails (servers : List Server) (s : Server) (d : String)
    (hnd : (servers.map Server.name).Nodup)
    (hs : s ∈ servers) (hd : d ∈ s.depends)
    (hmiss : ∀ t ∈ servers, t.name ≠ d) :
    (∃ e, determine_wakeup_order servers = Except.error e)
    ∧ (∀ n, determine_wakeup_order servers
          = Except.error (ServerConfigError.UndefinedDependency n) →
        ∀ t ∈ servers, t.name ≠ n)
    ∧ (∃ e, parse_server_dependencies servers = Except.error e)
    ∧ ∀ (toO : Server → OServer) (wolOk : Nat → Bool) (evalR : Nat → Nat → Nat → Bool)
        (evalD : Nat → Nat → Nat → Nat) (fuel : Nat),
        (main_model servers toO wolOk evalR evalD fuel).1 = [] := by
  have hfail : ∃ e, determine_wakeup_order servers = Except.error e := by
    cases hres : determine_wakeup_order servers with
    | error e => exact ⟨e, rfl⟩
    | ok out =>
      exfalso
      obtain ⟨st, hg, hmem, _⟩ := determine_wakeup_order_ok servers out hnd hres
      obtain ⟨j, hj, hjget⟩ := List.mem_iff_getElem.mp (hmem s hs)
      have hlkj : map_server_names servers st.sorted[j] = some s := by
        rw [hjget]
        exact map_server_names_self servers hnd s hs
      have htake := hg.topo j hj s hlkj d hd
      have hdsorted : d ∈ st.sorted := List.mem_of_mem_take htake
      obtain ⟨t, hteq⟩ := Option.isSome_iff_exists.mp (hg.domain d hdsorted)
      exact hmiss t (map_server_names_mem servers d t hteq)
        (map_server_names_name servers d t hteq)
  have hparse : ∃ e, parse_server_dependencies servers = Except.error e := by
    obtain ⟨e, he⟩ := hfail
    unfold parse_server_dependencies
    cases hval : validate_servers servers with
    | error e' => exact ⟨e', rfl⟩
    | ok u => cases u; exact ⟨e, he⟩
  refine ⟨hfail, ?_, hparse, ?_⟩
  · intro n hres t ht hteq
    have hnone : map_server_names servers n = none := by
      unfold determine_wakeup_order at hres
      split at hres
      · rename_i e hall
        injection hres with h1
        subst h1
        exact dfsAll_undef (map_server_names servers) (servers.length + 1) servers _ n hall
      · cases hres
    subst hteq
    have := map_server_names_self servers hnd t ht
    rw [hnone] at this
    cases this
  · intro toO wolOk evalR evalD fuel
    obtain ⟨e, he⟩ := hparse
    unfold main_model
    rw [he]

/-- C7 witness: the amended statement applied to the two-missing-names
example. -/
theorem undefined_dependency_fails_witness :
    ∃ e, determine_wakeup_order cexServers = Except.error e :=
  (undefined_dependency_fails cexServers (mkServer "a" ["x", "y"]) "y"
    (by decide) (by decide) (by decide) (by decide)).1

/-- The aggregate of the checks of a server is unsettled, Ok or TimedOut. -/
lemma perform_health_checks_result (checks : List Check) (evalR : Nat → Nat → Bool)
    (evalD : Nat → Nat → Nat) (fuel : Nat) :
    perform_health_checks checks evalR evalD fuel = none
    ∨ perform_health_checks checks evalR evalD fuel = some ServerStatus.Ok
    ∨ perform_health_checks checks evalR evalD fuel = some ServerStatus.TimedOut := by
  unfold perform_health_checks
  cases sequence_settled (run_checks evalR evalD fuel checks 0) with
  | none => left; rfl
  | some rs =>
    by_cases h : rs.foldl (fun b r => b || (r == CheckStatus.TimedOut)) false = true
    · right; right; simp [h]
    · right; left
      rw [Bool.not_eq_true] at h
      simp [h]

/-- An all-Ok prefix contributes its ok blocks to the trace and hands the
loop to the suffix with the position advanced. -/
lemma orchestrate_split (wolOk : Nat → Bool) (evalR : Nat → Nat → Nat → Bool)
    (evalD : Nat → Nat → Nat → Nat) (fuel : Nat) :
    ∀ (pre post : List OServer) (idx : Nat),
      (∀ k (hk : k < pre.length), wolOk (idx + k) = true
        ∧ perform_health_checks pre[k].check (evalR (idx + k)) (evalD (idx + k)) fuel
            = some ServerStatus.Ok) →
      orchestrate wolOk evalR evalD fuel (pre ++ post) idx
        = (okBlocks pre ++ (orchestrate wolOk evalR evalD fuel post (idx + pre.length)).1,
           (orchestrate wolOk evalR evalD fuel post (idx + pre.length)).2) := by
  intro pre
  induction pre with
  | nil => intro post idx _; simp [okBlocks]
  | cons s rest ih =>
    intro post idx hok
    have h0 := hok 0 (by simp)
    rw [Nat.add_zero] at h0
    have h0get : ((s :: rest) : List OServer)[0] = s := rfl
    rw [h0get] at h0
    have hrec := ih post (idx + 1) (fun k hk => by
      have hk1 : k + 1 < (s :: rest).length := by simp; omega
      have h1 := hok (k + 1) hk1
      have hidx : idx + (k + 1) = idx + 1 + k := by omega
      rw [hidx] at h1
      have hget : ((s :: rest) : List OServer)[k + 1] = rest[k] := by
        simp
      rw [hget] at h1
      exact h1)
    simp only [List.cons_append, List.append_eq, orchestrate, h0.1, if_true, h0.2]
    rw [hrec]
    simp only [okBlocks, List.cons_append, List.length_cons]
    rw [show idx + (rest.length + 1) = idx + 1 + rest.length by omega]

/-- Only woken servers have frame-sent events in an all-Ok block. -/
lemma wol_mem_okBlocks :
    ∀ (l : List OServer) (n : String),
      Event.WolSent n ∈ okBlocks l → n ∈ l.map OServer.name := by
  intro l
  induction l with
  | nil => intro n h; simp [okBlocks] at h
  | cons s rest ih =>
    intro n h
    simp only [okBlocks, List.mem_cons] at h
    rcases h with h1 | h2 | h3
    · injection h1 with h
      simp [h]
    · cases h2
    · exact List.mem_cons_of_mem _ (ih n h3)

/-- C5 part 1, as a helper: a later frame is transmitted only after, for
every earlier server, all checks settled Ok, and that Ok settlement
precedes the later frame in the trace. -/
lemma orchestrate_wol_after_ok (wolOk : Nat → Bool) (evalR : Nat → Nat → Nat → Bool)
    (evalD : Nat → Nat → Nat → Nat) (fuel : Nat) :
    ∀ (servers : List OServer) (idx : Nat),
      (servers.map OServer.name).Nodup →
      ∀ j (hj : j < servers.length),
        Event.WolSent servers[j].name ∈ (orchestrate wolOk evalR evalD fuel servers idx).1 →
        ∀ i (hij : i < j),
          wolOk (idx + i) = true
          ∧ perform_health_checks servers[i].check (evalR (idx + i)) (evalD (idx + i)) fuel
              = some ServerStatus.Ok
          ∧ ∃ t1 t2, (orchestrate wolOk evalR evalD fuel servers idx).1 = t1 ++ t2
              ∧ Event.ServerSettled servers[i].name ServerStatus.Ok ∈ t1
              ∧ Event.WolSent servers[j].name ∈ t2 := by
  intro servers
  induction servers with
  | nil => intro idx _ j hj; simp at hj
  | cons s rest ih =>
    intro idx hnd j hj hmem i hij
    simp only [List.map_cons, List.nodup_cons] at hnd
    by_cases hw : wolOk idx = true
    · rcases perform_health_checks_result s.check (evalR idx) (evalD idx) fuel
        with hp | hp | hp
      · simp only [orchestrate, hw, if_true, hp, List.mem_singleton] at hmem
        injection hmem with hname
        exfalso
        cases j with
        | zero => omega
        | succ j' =>
          have hj' : j' < rest.length := by simpa using hj
          have hget : ((s :: rest) : List OServer)[j' + 1] = rest[j'] := by simp
          rw [hget] at hname
          exact hnd.1 (hname ▸ List.mem_map.mpr ⟨rest[j'], by simp, rfl⟩)
      · -- server s settles Ok: recurse into the tail
        cases j with
        | zero => omega
        | succ j' =>
          have hj' : j' < rest.length := by simpa using hj
          have hget : ((s :: rest) : List OServer)[j' + 1] = rest[j'] := by simp
          simp only [orchestrate, hw, if_true, hp, List.mem_cons] at hmem
          rw [hget] at hmem
          have hmemtail :
              Event.WolSent rest[j'].name
                ∈ (orchestrate wolOk evalR evalD fuel rest (idx + 1)).1 := by
            rcases hmem with h1 | h2 | h3
            · exfalso
              injection h1 with hname
              exact hnd.1 (hname ▸ List.mem_map.mpr ⟨rest[j'], by simp, rfl⟩)
            · cases h2
            · exact h3
          cases i with
          | zero =>
            refine ⟨by rw [Nat.add_zero]; exact hw, ?_, ?_⟩
            · simpa using hp
            · refine ⟨[Event.WolSent s.name, Event.ServerSettled s.name ServerStatus.Ok],
                (orchestrate wolOk evalR evalD fuel rest (idx + 1)).1, ?_, ?_, ?_⟩
              · simp [orchestrate, hw, hp]
              · simp
              · rw [hget]
                exact hmemtail
          | succ i' =>
            have hij' : i' < j' := by omega
            obtain ⟨hw', hp', t1, t2, htr, hset, hwol⟩ :=
              ih (idx + 1) hnd.2 j' hj' hmemtail i' hij'
            have hgi : ((s :: rest) : List OServer)[i' + 1] = rest[i'] := by simp
            have hidx : idx + (i' + 1) = idx + 1 + i' := by omega
            refine ⟨by rw [hidx]; exact hw', by rw [hidx, hgi]; exact hp', ?_⟩
            refine ⟨Event.WolSent s.name :: Event.ServerSettled s.name ServerStatus.Ok :: t1,
              t2, ?_, ?_, ?_⟩
            · simp only [orchestrate, hw, if_true, hp]
              rw [htr]
              rfl
            · rw [hgi]
              exact List.mem_cons_of_mem _ (List.mem_cons_of_mem _ hset)
            · rw [hget]
              exact hwol
      · simp only [orchestrate, hw, if_true, hp, List.mem_cons] at hmem
        rcases hmem with h1 | h2
        · injection h1 with hname
          exfalso
          cases j with
          | zero => omega
          | succ j' =>
            have hj' : j' < rest.length := by simpa using hj
            have hget : ((s :: rest) : List OServer)[j' + 1] = rest[j'] := by simp
            rw [hget] at hname
            exact hnd.1 (hname ▸ List.mem_map.mpr ⟨rest[j'], by simp, rfl⟩)
        · rcases h2 with h2 | h3
          · cases h2
          · simp at h3
    · rw [Bool.not_eq_true] at hw
      simp only [orchestrate, hw, Bool.false_eq_true, if_false] at hmem
      simp at hmem

/-- C5 part 2, as a helper: when the aggregate of a server is TimedOut after an
all-Ok prefix, the run terminates with an error naming that server and no
later frame is ever transmitted. -/
lemma orchestrate_abort (wolOk : Nat → Bool) (evalR : Nat → Nat → Nat → Bool)
    (evalD : Nat → Nat → Nat → Nat) (fuel : Nat) (pre : List OServer) (s : OServer)
    (post : List OServer) (idx : Nat)
    (hnd : ((pre ++ s :: post).map OServer.name).Nodup)
    (hok : ∀ k (hk : k < pre.length), wolOk (idx + k) = true
      ∧ perform_health_checks pre[k].check (evalR (idx + k)) (evalD (idx + k)) fuel
          = some ServerStatus.Ok)
    (hwol : wolOk (idx + pre.length) = true)
    (hto : perform_health_checks s.check (evalR (idx + pre.length)) (evalD (idx + pre.length))
        fuel = some ServerStatus.TimedOut) :
    (orchestrate wolOk evalR evalD fuel (pre ++ s :: post) idx).2
        = RunOutcome.healthCheckTimedOut s.name
    ∧ ∀ t ∈ post,
        Event.WolSent t.name ∉ (orchestrate wolOk evalR evalD fuel (pre ++ s :: post) idx).1 := by
  rw [List.map_append, List.nodup_append] at hnd
  obtain ⟨hnd1, hnd2, hdisj⟩ := hnd
  simp only [List.map_cons, List.nodup_cons] at hnd2
  have hsplit := orchestrate_split wolOk evalR evalD fuel pre (s :: post) idx hok
  rw [hsplit]
  simp only [orchestrate, hwol, if_true, hto]
  constructor
  · trivial
  intro t ht hmem
  simp only [List.mem_append, List.mem_cons] at hmem
  rcases hmem with h1 | h2 | h3
  · have hpre := wol_mem_okBlocks pre t.name h1
    exact hdisj hpre (List.mem_cons_of_mem _ (List.mem_map.mpr ⟨t, ht, rfl⟩))
  · injection h2 with hname
    exact hnd2.1 (hname ▸ List.mem_map.mpr ⟨t, ht, rfl⟩)
  · rcases h3 with h3 | h4
    · cases h3
    · simp at h4

/-- C5: servers are woken strictly one at a time in wake order.  A later
frame is transmitted only if for every earlier server all checks
settled and the aggregate of the earlier server is Ok, with the Ok settlement
strictly preceding the later frame in the event trace; and when the aggregate of a server
is TimedOut, the run terminates with an error naming it and no
subsequent frame is ever transmitted. -/
theorem orchestrate_sequential_wake (wolOk : Nat → Bool) (evalR : Nat → Nat → Nat → Bool)
    (evalD : Nat → Nat → Nat → Nat) (fuel : Nat) :
    (∀ (servers : List OServer) (idx : Nat),
      (servers.map OServer.name).Nodup →
      ∀ j (hj : j < servers.length),
        Event.WolSent servers[j].name ∈ (orchestrate wolOk evalR evalD fuel servers idx).1 →
        ∀ i (hij : i < j),
          wolOk (idx + i) = true
          ∧ perform_health_checks servers[i].check (evalR (idx + i)) (evalD (idx + i)) fuel
              = some ServerStatus.Ok
          ∧ ∃ t1 t2, (orchestrate wolOk evalR evalD fuel servers idx).1 = t1 ++ t2
              ∧ Event.ServerSettled servers[i].name ServerStatus.Ok ∈ t1
              ∧ Event.WolSent servers[j].name ∈ t2)
    ∧ ∀ (pre : List OServer) (s : OServer) (post : List OServer) (idx : Nat),
        ((pre ++ s :: post).map OServer.name).Nodup →
        (∀ k (hk : k < pre.length), wolOk (idx + k) = true
          ∧ perform_health_checks pre[k].check (evalR (idx + k)) (evalD (idx + k)) fuel
              = some ServerStatus.Ok) →
        wolOk (idx + pre.length) = true →
        perform_health_checks s.check (evalR (idx + pre.length)) (evalD (idx + pre.length))
            fuel = some ServerStatus.TimedOut →
        (orchestrate wolOk evalR evalD fuel (pre ++ s :: post) idx).2
            = RunOutcome.healthCheckTimedOut s.name
        ∧ ∀ t ∈ post,
            Event.WolSent t.name
              ∉ (orchestrate wolOk evalR evalD fuel (pre ++ s :: post) idx).1 :=
  ⟨orchestrate_wol_after_ok wolOk evalR evalD fuel,
   fun pre s post idx hnd hok hwol hto =>
    orchestrate_abort wolOk evalR evalD fuel pre s post idx hnd hok hwol hto⟩

/-- C5 witness: in the run a, b, c where the only check of b times out at once,
the run terminates with an error naming b and the frame of c is never
transmitted. -/
theorem orchestrate_sequential_wake_witness :
    (orchestrate (fun _ => true) (fun _ _ _ => false) (fun _ _ _ => 1) 3
        ([wServerA] ++ wServerB :: [wServerC]) 0).2
      = RunOutcome.healthCheckTimedOut "b"
    ∧ Event.WolSent "c"
        ∉ (orchestrate (fun _ => true) (fun _ _ _ => false) (fun _ _ _ => 1) 3
            ([wServerA] ++ wServerB :: [wServerC]) 0).1 := by
  have h := (orchestrate_sequential_wake (fun _ => true) (fun _ _ _ => false)
      (fun _ _ _ => 1) 3).2 [wServerA] wServerB [wServerC] 0
    (by decide) (by decide) (by decide) (by decide)
  exact ⟨h.1, h.2 wServerC (by decide)⟩

end Rallyup
